import Mathlib

/-
Verification development for the pdfRAGbot repository.

The repository's core pipeline lives in src/app.py: a PDF is loaded page by
page, each page's text is split into overlapping chunks, every chunk is
stamped with provenance metadata, the chunks are appended to a FAISS vector
store which is immediately saved to disk, and questions are answered through
a retrieval QA chain.  The text splitter itself is the third-party
RecursiveCharacterTextSplitter, configured in app.py with the separator list
["\n\n", "\n", ".", " ", ""]; its windowing behaviour is modelled here from
the design document's description of the Chunker (greedy windowing with an
ordered separator fallback and a fixed overlap).  Everything else is
translated directly from src/app.py.
-/

namespace PdfRagBot

/-! ### Chunker (spec-modelled windowing, source-configured separators) -/

/-- The separator list passed to the text splitter in
`process_pdf_from_file` (src/app.py line 137):
`separators=["\n\n", "\n", ".", " ", ""]`. -/
def appSeparators : List String := ["\n\n", "\n", ".", " ", ""]

/-- The separator lists as character lists, for the splitter model. -/
def appSepsChars : List (List Char) := appSeparators.map String.toList

/-- Modelled from the spec: candidate cut points for one separator inside the
current window.  A cut point is the end position of an occurrence of the
separator; only cut points strictly after `overlap` (so the window makes
progress past the overlapped region) and within the window are kept.  The
empty separator occurs at every position, realising the raw character cut. -/
def sepCuts (ov : Nat) (s w : List Char) : List Nat :=
  (((List.range (w.length + 1)).filter
      (fun p => s.isPrefixOf (w.drop p))).map
        (fun p => p + s.length)).filter
          (fun e => decide (ov < e ∧ e ≤ w.length))

/-- Modelled from the spec: walk the ordered fallback list and, for the first
separator that occurs in the window (at a usable cut point), cut at its last
occurrence. -/
def chooseCut (ov : Nat) (w : List Char) : List (List Char) → Option Nat
  | [] => none
  | s :: rest =>
    match (sepCuts ov s w).getLast? with
    | some e => some e
    | none => chooseCut ov w rest

/-- Modelled from the spec: greedy windowing.  Accumulate up to `cs`
characters, ending the chunk at the separator cut chosen by `chooseCut`
(raw cut at `cs` when no separator applies); the next chunk begins `ov`
characters before the end of the previous chunk.  Each produced element
carries its start offset in the original text.  `fuel` bounds the
recursion; `splitSpec` supplies enough fuel for the whole text. -/
def splitGo (seps : List (List Char)) (cs ov : Nat) :
    Nat → List Char → Nat → List (Nat × List Char)
  | 0, _, _ => []
  | fuel + 1, text, pos =>
    if text.length ≤ cs then [(pos, text)]
    else
      let cut := (chooseCut ov (text.take cs) seps).getD cs
      (pos, text.take cut) :: splitGo seps cs ov fuel (text.drop (cut - ov)) (pos + (cut - ov))

/-- Modelled from the spec: `split(text, chunk_size, overlap)`, fully
materialised, with start offsets. -/
def splitSpec (seps : List (List Char)) (cs ov : Nat) (text : List Char) :
    List (Nat × List Char) :=
  splitGo seps cs ov (text.length + 1) text 0

/-! ### Helper lemmas about the splitter -/

theorem mem_of_getLast?_eq_some :
    ∀ {l : List Nat} {a : Nat}, l.getLast? = some a → a ∈ l := by
  intro l
  induction l with
  | nil => intro a h; simp [List.getLast?] at h
  | cons x xs ih =>
    intro a h
    cases xs with
    | nil =>
      simp [List.getLast?] at h
      simp [h]
    | cons y ys =>
      rw [List.getLast?_cons_cons] at h
      exact List.mem_cons_of_mem _ (ih h)

theorem sepCuts_bounds {ov : Nat} {s w : List Char} {e : Nat}
    (he : e ∈ sepCuts ov s w) : ov < e ∧ e ≤ w.length := by
  unfold sepCuts at he
  have h2 := List.mem_filter.mp he
  exact of_decide_eq_true h2.2

theorem chooseCut_bounds :
    ∀ (seps : List (List Char)) {ov : Nat} {w : List Char} {e : Nat},
      chooseCut ov w seps = some e → ov < e ∧ e ≤ w.length := by
  intro seps
  induction seps with
  | nil => intro ov w e h; simp [chooseCut] at h
  | cons s rest ih =>
    intro ov w e h
    unfold chooseCut at h
    cases hm : (sepCuts ov s w).getLast? with
    | none => rw [hm] at h; exact ih h
    | some x =>
      rw [hm] at h
      cases h
      exact sepCuts_bounds (mem_of_getLast?_eq_some hm)

theorem chooseCut_getD_le {seps : List (List Char)} {ov cs : Nat}
    {w : List Char} (hw : w.length ≤ cs) :
    (chooseCut ov w seps).getD cs ≤ cs := by
  cases h : chooseCut ov w seps with
  | none => simp
  | some e =>
    simp only [Option.getD]
    exact (chooseCut_bounds seps h).2.trans hw

theorem chooseCut_getD_gt {seps : List (List Char)} {ov cs : Nat}
    {w : List Char} (hov : ov < cs) :
    ov < (chooseCut ov w seps).getD cs := by
  cases h : chooseCut ov w seps with
  | none => simpa using hov
  | some e =>
    simp only [Option.getD]
    exact (chooseCut_bounds seps h).1

theorem splitGo_length_le {seps : List (List Char)} {cs ov : Nat} :
    ∀ (fuel : Nat) (text : List Char) (pos : Nat),
      ∀ pc ∈ splitGo seps cs ov fuel text pos, pc.2.length ≤ cs := by
  intro fuel
  induction fuel with
  | zero => intro text pos pc h; simp [splitGo] at h
  | succ n ih =>
    intro text pos pc h
    by_cases hlen : text.length ≤ cs
    · simp [splitGo, hlen] at h
      subst h
      exact hlen
    · simp only [splitGo, if_neg hlen, List.mem_cons] at h
      rcases h with h | h
      · subst h
        have hcut : (chooseCut ov (text.take cs) seps).getD cs ≤ cs :=
          chooseCut_getD_le (by simp)
        calc (text.take ((chooseCut ov (text.take cs) seps).getD cs)).length
            ≤ (chooseCut ov (text.take cs) seps).getD cs := by simp
          _ ≤ cs := hcut
      · exact ih _ _ pc h

theorem splitGo_head_pos {seps : List (List Char)} {cs ov : Nat}
    (fuel : Nat) (text : List Char) (pos : Nat) :
    ∃ c rest, splitGo seps cs ov (fuel + 1) text pos = (pos, c) :: rest := by
  by_cases hlen : text.length ≤ cs
  · exact ⟨text, [], by simp [splitGo, hlen]⟩
  · refine ⟨text.take ((chooseCut ov (text.take cs) seps).getD cs),
      splitGo seps cs ov fuel
        (text.drop ((chooseCut ov (text.take cs) seps).getD cs - ov))
        (pos + ((chooseCut ov (text.take cs) seps).getD cs - ov)), ?_⟩
    simp only [splitGo, if_neg hlen]

theorem splitGo_chain {seps : List (List Char)} {cs ov : Nat} (hov : ov < cs) :
    ∀ (fuel : Nat) (text : List Char) (pos : Nat),
      List.Chain' (fun a b => b.1 + ov = a.1 + a.2.length)
        (splitGo seps cs ov fuel text pos) := by
  intro fuel
  induction fuel with
  | zero => intro text pos; simp [splitGo]
  | succ n ih =>
    intro text pos
    by_cases hlen : text.length ≤ cs
    · simp [splitGo, hlen]
    · simp only [splitGo, if_neg hlen]
      cases n with
      | zero => simp [splitGo]
      | succ m =>
        obtain ⟨c, rest, hrec⟩ :=
          @splitGo_head_pos seps cs ov m
            (text.drop ((chooseCut ov (text.take cs) seps).getD cs - ov))
            (pos + ((chooseCut ov (text.take cs) seps).getD cs - ov))
        rw [hrec]
        apply List.chain'_cons.mpr
        constructor
        · have hgt : ov < (chooseCut ov (text.take cs) seps).getD cs :=
            chooseCut_getD_gt hov
          have hle : (chooseCut ov (text.take cs) seps).getD cs ≤ cs :=
            chooseCut_getD_le (by simp)
          have hlt : (chooseCut ov (text.take cs) seps).getD cs ≤ text.length :=
            hle.trans (le_of_not_le hlen)
          have htk : (text.take ((chooseCut ov (text.take cs) seps).getD cs)).length
              = (chooseCut ov (text.take cs) seps).getD cs := by
            simp [Nat.min_eq_left hlt]
          simp only [htk]
          omega
        · rw [← hrec]
          exact ih _ _

/-! ### Data model and ingestion (translated from src/app.py) -/

/-- A page-level document as produced by the PDF loader: extracted text plus
the loader's page metadata (absent when the loader supplies none). -/
structure PageDoc where
  content : String
  page : Option Nat
deriving Repr, DecidableEq

/-- A chunk as stored in the vector store: text plus the metadata stamped in
`process_pdf_from_file` (src/app.py lines 141-146) and the page metadata
inherited from its page document. -/
structure Chunk where
  content : String
  source : String
  chunk_id : Nat
  full_path : String
  page : Option Nat
deriving Repr, DecidableEq

/-- The value of `PDF_STORAGE_DIR` (src/app.py line 39). -/
def PDF_STORAGE_DIR : String := "./data/pdfs"

/-- Model of `os.path.basename` / `pathlib.Path.name`: the final path
component after the last slash. -/
def basename (path : String) : String :=
  String.mk ((path.toList.reverse.takeWhile (fun c => c ≠ '/')).reverse)

/-- Model of `pathlib.Path.name`, used in `scan_and_process_local_pdfs`
(src/app.py line 194). -/
def pathName (p : String) : String := basename p

/-- POSIX absoluteness of a path string: it begins with a slash. -/
def isAbsolutePath (p : String) : Bool :=
  match p.toList with
  | [] => false
  | c :: _ => c = '/'

/-- Split every page document's text with the configured splitter, keeping
each resulting piece paired with its page metadata; this is
`text_splitter.split_documents(documents)` (src/app.py line 139), with the
splitter windowing modelled from the spec and the separators from the source. -/
def splitDocs (cs ov : Nat) (docs : List PageDoc) : List (String × Option Nat) :=
  (docs.map (fun d =>
    (splitSpec appSepsChars cs ov d.content.toList).map
      (fun pc => (String.mk pc.2, d.page)))).flatten

/-- The metadata-stamping loop of `process_pdf_from_file`
(src/app.py lines 142-146): `for i, chunk in enumerate(chunks)` sets
`source`, `chunk_id`, `full_path`; `i0` is the running enumeration index. -/
def stampChunksGo (pdfPath : String) : Nat → List (String × Option Nat) → List Chunk
  | _, [] => []
  | i0, pc :: rest =>
    { content := pc.1
      source := basename pdfPath
      chunk_id := i0
      full_path := pdfPath
      page := pc.2 } :: stampChunksGo pdfPath (i0 + 1) rest

/-- Stamp all chunks of one PDF, zero-based. -/
def stampChunks (pdfPath : String) (pieces : List (String × Option Nat)) : List Chunk :=
  stampChunksGo pdfPath 0 pieces

/-- Result of a single-document ingestion: the returned success flag, the
updated in-memory store, the on-disk store, and whether an error banner was
shown (`st.error`). -/
structure IngestResult where
  success : Bool
  store : Option (List Chunk)
  disk : Option (List Chunk)
  errorReported : Bool
deriving Repr, DecidableEq

/-- Translation of `process_pdf_from_file` (src/app.py lines 126-161).
`loader` models `PyPDFLoader(...).load()`: `none` is a raised exception
(unreadable PDF).  `saveOk` models whether `vector_store.save_local`
succeeds for the given path; when it raises, the function returns
`False` with the already-mutated in-memory store and an unchanged disk
state, mirroring the `except` branch.  On success the new store is both
returned and written to disk before returning. -/
def process_pdf_from_file (loader : String → Option (List PageDoc))
    (saveOk : String → Bool) (cs ov : Nat) (pdfPath : String)
    (vector_store disk : Option (List Chunk)) : IngestResult :=
  match loader pdfPath with
  | none => ⟨false, vector_store, disk, true⟩
  | some documents =>
      let chunks := stampChunks pdfPath (splitDocs cs ov documents)
      let newStore :=
        match vector_store with
        | none => chunks
        | some s => s ++ chunks
      if saveOk pdfPath then ⟨true, some newStore, some newStore, false⟩
      else ⟨false, some newStore, disk, true⟩

/-- Translation of `process_pdf` (src/app.py lines 164-179): the uploaded
file is saved under `PDF_STORAGE_DIR` and that path is processed. -/
def process_pdf (loader : String → Option (List PageDoc))
    (saveOk : String → Bool) (cs ov : Nat) (name : String)
    (vector_store disk : Option (List Chunk)) : IngestResult :=
  process_pdf_from_file loader saveOk cs ov (PDF_STORAGE_DIR ++ "/" ++ name)
    vector_store disk

/-- The loop body of `scan_and_process_local_pdfs` (src/app.py lines
193-199), folded over the recursively discovered PDF paths: a path whose
basename is already in the processed-files registry is skipped; otherwise it
is processed, and on success its basename is appended to the registry and
the processed count incremented.  Returns
(count, store, disk, registry). -/
def scanGo (loader : String → Option (List PageDoc)) (saveOk : String → Bool)
    (cs ov : Nat) :
    List String → List String → Option (List Chunk) → Option (List Chunk) →
      Nat → Nat × Option (List Chunk) × Option (List Chunk) × List String
  | [], registry, store, disk, count => (count, store, disk, registry)
  | p :: rest, registry, store, disk, count =>
    if pathName p ∈ registry then
      scanGo loader saveOk cs ov rest registry store disk count
    else
      let r := process_pdf_from_file loader saveOk cs ov p store disk
      if r.success then
        scanGo loader saveOk cs ov rest (registry ++ [pathName p]) r.store r.disk
          (count + 1)
      else
        scanGo loader saveOk cs ov rest registry r.store r.disk count

/-- Translation of `scan_and_process_local_pdfs` (src/app.py lines 182-201),
with the discovered PDF paths passed in place of the `rglob` result. -/
def scan_and_process_local_pdfs (loader : String → Option (List PageDoc))
    (saveOk : String → Bool) (cs ov : Nat) (pdfFiles : List String)
    (registry : List String) (store disk : Option (List Chunk)) :
    Nat × Option (List Chunk) × Option (List Chunk) × List String :=
  scanGo loader saveOk cs ov pdfFiles registry store disk 0

/-- The uploaded-files batch loop of `main` (src/app.py lines 315-330):
already-processed names are skipped; fresh names are processed via
`process_pdf`; on success the session store is replaced, the name is
registered, and the success tally incremented; on failure the loop simply
continues with the next file.  Returns (success_count, store, disk,
processed_files). -/
def uploadBatchGo (loader : String → Option (List PageDoc))
    (saveOk : String → Bool) (cs ov : Nat) :
    List String → Option (List Chunk) → Option (List Chunk) → List String →
      Nat → Nat × Option (List Chunk) × Option (List Chunk) × List String
  | [], store, disk, processed, count => (count, store, disk, processed)
  | f :: rest, store, disk, processed, count =>
    if f ∈ processed then
      uploadBatchGo loader saveOk cs ov rest store disk processed count
    else
      let r := process_pdf loader saveOk cs ov f store disk
      if r.success then
        uploadBatchGo loader saveOk cs ov rest r.store r.disk
          (processed ++ [f]) (count + 1)
      else
        uploadBatchGo loader saveOk cs ov rest store disk processed count

/-- Number of chunks held by an optional store (an absent store is empty). -/
def chunkCount (o : Option (List Chunk)) : Nat := (o.getD []).length

/-- Translation of `initialize_vector_store` (src/app.py lines 102-123).
`indexExists` models `index_path.exists()`; `loadResult` models
`FAISS.load_local`, with `Except.error` a raised exception.  The result is
`Except.ok (handle, errorReported)`: the whole body is wrapped in
`try/except`, so a load failure is reported (`st.error`) and `None` is
returned — an `Except.error` result (a propagated exception) is never
produced. -/
def init_vector_store (indexExists : Bool)
    (loadResult : Except String (List Chunk)) :
    Except String (Option (List Chunk) × Bool) :=
  if indexExists then
    match loadResult with
    | Except.ok vs => Except.ok (some vs, false)
    | Except.error _ => Except.ok (none, true)
  else
    Except.ok (none, false)

/-! ### Question answering (translated from src/app.py) -/

/-- The response dictionary returned by `qa_chain.invoke`
(`result` plus `source_documents`). -/
structure QAResponse where
  result : String
  source_documents : List Chunk
deriving Repr, DecidableEq

/-- One entry of `st.session_state.chat_history` (src/app.py lines 472-482). -/
structure ChatTurn where
  question : String
  answer : String
  sources : List (String × String)
deriving Repr, DecidableEq

/-- What the assistant message of one question renders as. -/
inductive ChatOutcome where
  | answered (answer : String) (sources : List Chunk)
  | errorShown (msg : String)
  | noAnswer
deriving Repr, DecidableEq

/-- Whether an outcome is an actual answer (as opposed to an error banner or
silence). -/
def ChatOutcome.isAnswered : ChatOutcome → Bool
  | .answered _ _ => true
  | _ => false

/-- Translation of `get_answer` (src/app.py lines 250-257): `invokeResult`
models `qa_chain.invoke({"query": question})`, with `Except.error` a raised
exception (transport or quota failure).  Returns the optional response and
whether an error banner was shown. -/
def get_answer (invokeResult : Except String QAResponse) :
    Option QAResponse × Bool :=
  match invokeResult with
  | Except.ok r => (some r, false)
  | Except.error _ => (none, true)

/-- The session-state initialisation of the QA chain (src/app.py lines
285-287): a chain is built only when the vector store is present; with an
empty (absent) store no chain exists. -/
def qaChainOfStore (store : Option (List Chunk)) : Option Unit :=
  match store with
  | none => none
  | some _ => some ()

/-- The question-handling branch of `main` (src/app.py lines 442-484): with
no QA chain the error banner is shown; otherwise `get_answer` is consulted —
on a response the answer and its sources are rendered and a turn is appended
to the chat history, and on `None` (the request failed and was already
reported) nothing is rendered and the history is left unchanged. -/
def handleQuestion (qaChain : Option Unit) (invokeResult : Except String QAResponse)
    (question : String) (history : List ChatTurn) :
    ChatOutcome × List ChatTurn :=
  match qaChain with
  | none =>
      (ChatOutcome.errorShown "QA chain not initialized. Please check your configuration.",
       history)
  | some _ =>
      match (get_answer invokeResult).1 with
      | some r =>
          (ChatOutcome.answered r.result r.source_documents,
           history ++ [{ question := question
                         answer := r.result
                         sources := r.source_documents.map
                           (fun d => (d.source, d.content)) }])
      | none => (ChatOutcome.noAnswer, history)

/-- Rendering of a source's page in the sources expander
(src/app.py line 466): `doc.metadata.get('page', 'N/A')`. -/
def displayPage (c : Chunk) : String :=
  match c.page with
  | some n => toString n
  | none => "N/A"

/-- A loader returning one single-page document, used to instantiate
hypothesis-bearing theorems at a concrete input. -/
def demoLoader : String → Option (List PageDoc) :=
  fun _ => some [{ content := "hello world", page := some 0 }]

/-- A loader that always raises, used to instantiate failure paths. -/
def failLoader : String → Option (List PageDoc) :=
  fun _ => none

/-- A save operation that always succeeds. -/
def saveAlways : String → Bool := fun _ => true

/-! ### Lemmas about metadata stamping -/

theorem stampChunksGo_length (path : String) :
    ∀ (i0 : Nat) (pieces : List (String × Option Nat)),
      (stampChunksGo path i0 pieces).length = pieces.length := by
  intro i0 pieces
  induction pieces generalizing i0 with
  | nil => rfl
  | cons pc rest ih => simp [stampChunksGo, ih]

theorem stampChunks_length (path : String) (pieces : List (String × Option Nat)) :
    (stampChunks path pieces).length = pieces.length :=
  stampChunksGo_length path 0 pieces

theorem stampChunksGo_getElem? (path : String) :
    ∀ (pieces : List (String × Option Nat)) (i0 j : Nat),
      (stampChunksGo path i0 pieces)[j]?
        = pieces[j]?.map (fun pc =>
            { content := pc.1
              source := basename path
              chunk_id := i0 + j
              full_path := path
              page := pc.2 : Chunk }) := by
  intro pieces
  induction pieces with
  | nil => intro i0 j; simp [stampChunksGo]
  | cons pc rest ih =>
    intro i0 j
    cases j with
    | zero => simp [stampChunksGo]
    | succ j =>
      have e : i0 + (j + 1) = (i0 + 1) + j := by omega
      simp only [stampChunksGo, List.getElem?_cons_succ, e]
      exact ih (i0 + 1) j

/-! ### Claim theorems -/

/-- C1 counterexample: the splitter configured in `process_pdf_from_file` is
NOT the four-level fallback the claim states.  Its separator list contains a
fifth level, the single space (word break), between the sentence break and
the raw character cut, and on a concrete input this extra level changes
where the split boundary falls. -/
theorem c1_counterexample :
    appSeparators ≠ ["\n\n", "\n", ".", ""]
    ∧ " " ∈ appSeparators
    ∧ splitSpec appSepsChars 6 1 ['a', 'b', 'c', ' ', 'd', 'e', 'f', 'g', 'h']
        ≠ splitSpec ((["\n\n", "\n", ".", ""] : List String).map String.toList) 6 1
            ['a', 'b', 'c', ' ', 'd', 'e', 'f', 'g', 'h'] :=
  ⟨by decide, by decide, by decide⟩

/-- C1 (amended): split boundaries are chosen by the ordered fallback
paragraph break, line break, sentence break, word break (single space),
then raw character cut — five levels, in that priority order; each chunk
accumulates at most `chunk_size` characters, and the next chunk begins
`overlap` characters before the end of the previous one. -/
theorem c1_separator_fallback_amended (cs ov : Nat) (text : List Char)
    (hov : ov < cs) :
    appSeparators = ["\n\n", "\n", ".", " ", ""]
    ∧ (∀ pc ∈ splitSpec appSepsChars cs ov text, pc.2.length ≤ cs)
    ∧ List.Chain' (fun a b => b.1 + ov = a.1 + a.2.length)
        (splitSpec appSepsChars cs ov text) := by
  refine ⟨rfl, ?_, ?_⟩
  · intro pc h
    exact splitGo_length_le _ _ _ pc h
  · exact splitGo_chain hov _ _ _

/-- C1 witness: the amended claim instantiated on a concrete document with
chunk size 6 and overlap 1. -/
theorem c1_separator_fallback_amended_witness :
    appSeparators = ["\n\n", "\n", ".", " ", ""]
    ∧ (∀ pc ∈ splitSpec appSepsChars 6 1 ['a', 'b', 'c', ' ', 'd', 'e', 'f', 'g', 'h'],
        pc.2.length ≤ 6)
    ∧ List.Chain' (fun a b => b.1 + 1 = a.1 + a.2.length)
        (splitSpec appSepsChars 6 1 ['a', 'b', 'c', ' ', 'd', 'e', 'f', 'g', 'h']) :=
  c1_separator_fallback_amended 6 1 ['a', 'b', 'c', ' ', 'd', 'e', 'f', 'g', 'h']
    (by decide)

/-- C2: whenever `process_pdf_from_file` returns success, the on-disk index
equals the in-memory index (the save happened before the return) and the
in-memory index is the previous chunks with the new document's chunks
appended — there is no successful return without a preceding persist. -/
theorem c2_persist_before_return (loader : String → Option (List PageDoc))
    (saveOk : String → Bool) (cs ov : Nat) (path : String)
    (store disk : Option (List Chunk))
    (h : (process_pdf_from_file loader saveOk cs ov path store disk).success = true) :
    (process_pdf_from_file loader saveOk cs ov path store disk).disk
      = (process_pdf_from_file loader saveOk cs ov path store disk).store
    ∧ ∃ newChunks : List Chunk,
        (process_pdf_from_file loader saveOk cs ov path store disk).store
          = some (store.getD [] ++ newChunks) := by
  cases hl : loader path with
  | none => simp [process_pdf_from_file, hl] at h
  | some docs =>
    by_cases hs : saveOk path
    · refine ⟨?_, stampChunks path (splitDocs cs ov docs), ?_⟩
      · simp [process_pdf_from_file, hl, hs]
      · cases store <;> simp [process_pdf_from_file, hl, hs]
    · simp [process_pdf_from_file, hl, hs] at h

/-- C2 witness: a concrete successful ingestion of a one-page document into
an empty store. -/
theorem c2_persist_before_return_witness :
    (process_pdf_from_file demoLoader saveAlways 100 10 "a.pdf" none none).disk
      = (process_pdf_from_file demoLoader saveAlways 100 10 "a.pdf" none none).store
    ∧ ∃ newChunks : List Chunk,
        (process_pdf_from_file demoLoader saveAlways 100 10 "a.pdf" none none).store
          = some ((none : Option (List Chunk)).getD [] ++ newChunks) :=
  c2_persist_before_return demoLoader saveAlways 100 10 "a.pdf" none none (by rfl)

/-- C9: a document whose text is no longer than `chunk_size` is split into
exactly one chunk, and that chunk is the whole document. -/
theorem c9_short_document_single_chunk (seps : List (List Char)) (cs ov : Nat)
    (text : List Char) (h : text.length ≤ cs) :
    splitSpec seps cs ov text = [(0, text)] := by
  simp [splitSpec, splitGo, h]

/-- C9 witness: a two-character document with chunk size 10. -/
theorem c9_short_document_single_chunk_witness :
    splitSpec appSepsChars 10 2 ['h', 'i'] = [(0, ['h', 'i'])] :=
  c9_short_document_single_chunk appSepsChars 10 2 ['h', 'i'] (by decide)

/-- C3: (a) a filename already in the processed-files registry is skipped by
the caller before the ingestor is invoked — a scan over it returns with the
count, store, disk and registry all unchanged; (b) the ingestor itself
performs no duplicate detection — running `process_pdf_from_file` twice on
the same document, bypassing the registry, doubles the total chunk count. -/
theorem c3_idempotence_policy (loader : String → Option (List PageDoc))
    (saveOk : String → Bool) (cs ov : Nat) (p : String) (registry : List String)
    (store disk : Option (List Chunk)) :
    (pathName p ∈ registry →
      scan_and_process_local_pdfs loader saveOk cs ov [p] registry store disk
        = (0, store, disk, registry))
    ∧ ((process_pdf_from_file loader saveOk cs ov p none none).success = true →
      chunkCount (process_pdf_from_file loader saveOk cs ov p
          (process_pdf_from_file loader saveOk cs ov p none none).store
          (process_pdf_from_file loader saveOk cs ov p none none).disk).store
        = 2 * chunkCount (process_pdf_from_file loader saveOk cs ov p none none).store) := by
  constructor
  · intro hmem
    simp [scan_and_process_local_pdfs, scanGo, hmem]
  · intro hsucc
    cases hl : loader p with
    | none => simp [process_pdf_from_file, hl] at hsucc
    | some docs =>
      by_cases hs : saveOk p
      · simp only [process_pdf_from_file, hl, hs, if_pos, if_true, chunkCount,
          Option.getD_some]
        simp [List.length_append]
        omega
      · simp [process_pdf_from_file, hl, hs] at hsucc

/-- C3 witness: a scan over a path whose basename is already registered is a
no-op, and re-ingesting the same concrete document doubles the chunk count. -/
theorem c3_idempotence_policy_witness :
    scan_and_process_local_pdfs demoLoader saveAlways 100 10 ["d/a.pdf"]
        ["a.pdf"] none none = (0, none, none, ["a.pdf"])
    ∧ chunkCount (process_pdf_from_file demoLoader saveAlways 100 10 "d/a.pdf"
          (process_pdf_from_file demoLoader saveAlways 100 10 "d/a.pdf" none none).store
          (process_pdf_from_file demoLoader saveAlways 100 10 "d/a.pdf" none none).disk).store
        = 2 * chunkCount (process_pdf_from_file demoLoader saveAlways 100 10
            "d/a.pdf" none none).store :=
  ⟨(c3_idempotence_policy demoLoader saveAlways 100 10 "d/a.pdf" ["a.pdf"]
      none none).1 (by decide),
   (c3_idempotence_policy demoLoader saveAlways 100 10 "d/a.pdf" ["a.pdf"]
      none none).2 (by rfl)⟩

/-- C4: an error while loading the persisted index at startup is reported
and `init_vector_store` returns the empty handle wrapped in a normal result
— exactly the handle returned when no index exists on disk — instead of
propagating the failure to the caller. -/
theorem c4_load_failure_fallback (e : String)
    (lr : Except String (List Chunk)) :
    init_vector_store true (Except.error e) = Except.ok (none, true)
    ∧ (init_vector_store true (Except.error e)).map Prod.fst
        = (init_vector_store false lr).map Prod.fst :=
  ⟨rfl, rfl⟩

/-- C5 counterexample: with an empty Vector Index no QA chain exists, so a
question does not produce a "don't know" answer with an empty source list —
it produces the "QA chain not initialized" error banner, which is not an
answer at all. -/
theorem c5_counterexample :
    (handleQuestion (qaChainOfStore none)
        (Except.ok { result := "hi", source_documents := [] })
        "What color is the sky?" []).1
      = ChatOutcome.errorShown "QA chain not initialized. Please check your configuration."
    ∧ ((handleQuestion (qaChainOfStore none)
        (Except.ok { result := "hi", source_documents := [] })
        "What color is the sky?" []).1).isAnswered = false :=
  ⟨rfl, rfl⟩

/-- C5 (amended): a question arriving while the Vector Index is empty never
reaches the answerer: no QA chain is initialized, the handler shows the
error banner "QA chain not initialized. Please check your configuration.",
no answer and no sources are produced, the chat history is unchanged, and
the handler returns normally (no exception propagates). -/
theorem c5_empty_index_amended (invokeResult : Except String QAResponse)
    (q : String) (history : List ChatTurn) :
    handleQuestion (qaChainOfStore none) invokeResult q history
      = (ChatOutcome.errorShown
          "QA chain not initialized. Please check your configuration.", history) :=
  rfl

/-- C7: when the language-model request fails, `get_answer` reports the
error and returns no response, so no partial answer is surfaced; the
question handler renders nothing and appends no turn, leaving the prior
conversation history unchanged — only that single question is aborted. -/
theorem c7_llm_failure_aborts_single_question (e q : String)
    (history : List ChatTurn) :
    (get_answer (Except.error e)).1 = none
    ∧ (get_answer (Except.error e)).2 = true
    ∧ handleQuestion (some ()) (Except.error e) q history
        = (ChatOutcome.noAnswer, history) :=
  ⟨rfl, rfl, rfl⟩

/-- C6: an ingestion error on one document never aborts the uploaded-files
batch: a failed document leaves the state untouched and the loop simply
continues with the remaining files (the failure itself having been reported
per-document, `errorReported`); and over any batch the final success tally
equals the number of documents that ingested without error — each success
adds exactly one name to the processed-files registry and one to the count. -/
theorem c6_batch_error_policy (loader : String → Option (List PageDoc))
    (saveOk : String → Bool) (cs ov : Nat) (f : String)
    (files rest : List String) (store disk : Option (List Chunk))
    (processed : List String) (count : Nat) :
    ((process_pdf loader saveOk cs ov f store disk).success = false →
      (process_pdf loader saveOk cs ov f store disk).errorReported = true)
    ∧ (f ∉ processed →
      (process_pdf loader saveOk cs ov f store disk).success = false →
      uploadBatchGo loader saveOk cs ov (f :: rest) store disk processed count
        = uploadBatchGo loader saveOk cs ov rest store disk processed count)
    ∧ ((uploadBatchGo loader saveOk cs ov files store disk processed count).1
          + processed.length
        = count
          + (uploadBatchGo loader saveOk cs ov files store disk
              processed count).2.2.2.length) := by
  refine ⟨?_, ?_, ?_⟩
  · intro hfail
    unfold process_pdf process_pdf_from_file at *
    cases hl : loader (PDF_STORAGE_DIR ++ "/" ++ f) with
    | none => simp [hl]
    | some docs =>
      by_cases hs : saveOk (PDF_STORAGE_DIR ++ "/" ++ f)
      · simp [hl, hs] at hfail
      · simp [hl, hs]
  · intro hnm hfail
    simp [uploadBatchGo, hnm, hfail]
  · induction files generalizing store disk processed count with
    | nil => simp [uploadBatchGo]
    | cons g gs ih =>
      by_cases hmem : g ∈ processed
      · simpa [uploadBatchGo, hmem] using ih store disk processed count
      · by_cases hsucc : (process_pdf loader saveOk cs ov g store disk).success = true
        · have h2 := ih (process_pdf loader saveOk cs ov g store disk).store
            (process_pdf loader saveOk cs ov g store disk).disk
            (processed ++ [g]) (count + 1)
          simp only [uploadBatchGo, if_neg hmem, if_pos hsucc]
          simp only [List.length_append, List.length_singleton] at h2
          omega
        · have hfail : (process_pdf loader saveOk cs ov g store disk).success = false :=
            Bool.not_eq_true _ ▸ hsucc
          simpa [uploadBatchGo, hmem, hfail] using ih store disk processed count

/-- C6 witness: a concrete batch whose first file fails to load continues
with the second, and a concrete batch's tally matches its registry growth. -/
theorem c6_batch_error_policy_witness :
    (process_pdf failLoader saveAlways 100 10 "a.pdf" none none).errorReported = true
    ∧ uploadBatchGo failLoader saveAlways 100 10 ["a.pdf", "b.pdf"] none none [] 0
        = uploadBatchGo failLoader saveAlways 100 10 ["b.pdf"] none none [] 0
    ∧ (uploadBatchGo failLoader saveAlways 100 10 ["a.pdf"] none none [] 0).1
          + ([] : List String).length
        = 0 + (uploadBatchGo failLoader saveAlways 100 10 ["a.pdf"] none none
            [] 0).2.2.2.length :=
  ⟨(c6_batch_error_policy failLoader saveAlways 100 10 "a.pdf" ["a.pdf"]
      ["b.pdf"] none none [] 0).1 (by rfl),
   (c6_batch_error_policy failLoader saveAlways 100 10 "a.pdf" ["a.pdf"]
      ["b.pdf"] none none [] 0).2.1 (by simp) (by rfl),
   (c6_batch_error_policy failLoader saveAlways 100 10 "a.pdf" ["a.pdf"]
      ["b.pdf"] none none [] 0).2.2⟩

/-- C8 counterexample: the ingestor stamps `full_path` with the path as it
was given, and the app's own call sites pass relative paths: a chunk
ingested through the upload path carries `./data/pdfs/a.pdf`, which is not
an absolute path. -/
theorem c8_counterexample :
    ((process_pdf demoLoader saveAlways 100 10 "a.pdf" none none).store).map
        (fun l => l.map Chunk.full_path) = some ["./data/pdfs/a.pdf"]
    ∧ isAbsolutePath "./data/pdfs/a.pdf" = false :=
  ⟨by decide, by decide⟩

/-- C8 (amended): every chunk produced by ingesting a document is stamped
with the source filename (the basename of the processed path), a zero-based
chunk index counting within that document, and the processed path as given
(at this app's call sites a relative path under `./data/pdfs`, not an
absolute path); the chunk keeps the loader's page metadata, and the page is
rendered as the number when present and as `N/A` otherwise. -/
theorem c8_metadata_stamping_amended (path : String)
    (pieces : List (String × Option Nat)) (j : Nat) (h : j < pieces.length) :
    (stampChunks path pieces).length = pieces.length
    ∧ (stampChunks path pieces)[j]?.map Chunk.source = some (basename path)
    ∧ (stampChunks path pieces)[j]?.map Chunk.chunk_id = some j
    ∧ (stampChunks path pieces)[j]?.map Chunk.full_path = some path
    ∧ (stampChunks path pieces)[j]?.map Chunk.page = pieces[j]?.map Prod.snd
    ∧ (∀ c ∈ stampChunks path pieces,
        (c.page = none → displayPage c = "N/A")
        ∧ ∀ n, c.page = some n → displayPage c = toString n) := by
  have hget := stampChunksGo_getElem? path pieces 0 j
  have hpc : pieces[j]? = some (pieces.get ⟨j, h⟩) := List.getElem?_eq_getElem h
  refine ⟨stampChunks_length path pieces, ?_, ?_, ?_, ?_, ?_⟩
  · rw [stampChunks, hget, hpc]; rfl
  · rw [stampChunks, hget, hpc]; simp
  · rw [stampChunks, hget, hpc]; rfl
  · rw [stampChunks, hget, hpc]; rfl
  · intro c _
    constructor
    · intro hp; simp [displayPage, hp]
    · intro n hp; simp [displayPage, hp]

/-- C8 witness: the amended stamping facts instantiated on a concrete
two-piece document. -/
theorem c8_metadata_stamping_amended_witness :
    (stampChunks "./data/pdfs/a.pdf" [("x", some 2), ("y", none)]).length = 2
    ∧ (stampChunks "./data/pdfs/a.pdf" [("x", some 2), ("y", none)])[1]?.map
        Chunk.source = some (basename "./data/pdfs/a.pdf")
    ∧ (stampChunks "./data/pdfs/a.pdf" [("x", some 2), ("y", none)])[1]?.map
        Chunk.chunk_id = some 1
    ∧ (stampChunks "./data/pdfs/a.pdf" [("x", some 2), ("y", none)])[1]?.map
        Chunk.full_path = some "./data/pdfs/a.pdf"
    ∧ (stampChunks "./data/pdfs/a.pdf" [("x", some 2), ("y", none)])[1]?.map
        Chunk.page
        = (([("x", some 2), ("y", none)] : List (String × Option Nat))[1]?).map
            Prod.snd
    ∧ (∀ c ∈ stampChunks "./data/pdfs/a.pdf" [("x", some 2), ("y", none)],
        (c.page = none → displayPage c = "N/A")
        ∧ ∀ n, c.page = some n → displayPage c = toString n) :=
  c8_metadata_stamping_amended "./data/pdfs/a.pdf" [("x", some 2), ("y", none)]
    1 (by decide)

/-- C10: the processed-files registry is keyed by basename only.  For two
distinct paths in different subdirectories that share a filename, a scan
ingests only the first one encountered, silently skips the second, and
counts a single processed file. -/
theorem c10_basename_keyed_registry (loader : String → Option (List PageDoc))
    (saveOk : String → Bool) (cs ov : Nat) (p1 p2 : String)
    (registry : List String) (store disk : Option (List Chunk))
    (_hdist : p1 ≠ p2) (hname : pathName p1 = pathName p2)
    (hfresh : pathName p1 ∉ registry)
    (hsucc : (process_pdf_from_file loader saveOk cs ov p1 store disk).success = true) :
    scan_and_process_local_pdfs loader saveOk cs ov [p1, p2] registry store disk
      = (1, (process_pdf_from_file loader saveOk cs ov p1 store disk).store,
            (process_pdf_from_file loader saveOk cs ov p1 store disk).disk,
            registry ++ [pathName p1]) := by
  have hmem2 : pathName p2 ∈ registry ++ [pathName p1] := by
    rw [← hname]
    exact List.mem_append_right _ (List.mem_singleton_self _)
  simp [scan_and_process_local_pdfs, scanGo, hfresh, hsucc, hmem2]

/-- C10 witness: two concrete files `d1/a.pdf` and `d2/a.pdf` in different
subdirectories sharing the basename `a.pdf`. -/
theorem c10_basename_keyed_registry_witness :
    scan_and_process_local_pdfs demoLoader saveAlways 100 10
        ["d1/a.pdf", "d2/a.pdf"] [] none none
      = (1, (process_pdf_from_file demoLoader saveAlways 100 10 "d1/a.pdf"
              none none).store,
            (process_pdf_from_file demoLoader saveAlways 100 10 "d1/a.pdf"
              none none).disk,
            [] ++ [pathName "d1/a.pdf"]) :=
  c10_basename_keyed_registry demoLoader saveAlways 100 10 "d1/a.pdf" "d2/a.pdf"
    [] none none (by decide) (by decide) (by decide) (by rfl)

end PdfRagBot
